import Mathlib

/- Verification development for the SP3CTRON backtest core:
   a shallow embedding of `src/trading_agents/backtest/portifolio.py` and
   `src/trading_agents/backtest/metrics.py`.

   Modelling conventions:
   * Python floats are modelled as exact rationals (`ℚ`), Python ints as `ℤ`.
   * Python `int(x)` truncates toward zero; this is `pyInt`.
   * `dict`s keyed by ticker/date are association lists in insertion order
     (`List (String × _)` / `List (ℕ × _)`), looked up with `List.lookup`.
   * Mutating methods become functions `Portfolio → args → Portfolio × result`.
   * pandas `NaN` cells are `Option.none`; pandas Series are positionally
     aligned lists.
   * `np.sqrt` and float `**` are left as parameters (`sqrtQ`, `powQ`) of the
     metrics function: the claims under study never depend on their values. -/

namespace Backtest

/-- Python `int()` applied to a real value: truncation toward zero. -/
def pyInt (q : ℚ) : ℤ := if 0 ≤ q then ⌊q⌋ else -⌊-q⌋

/-- `Position` dataclass (portifolio.py). -/
structure Position where
  ticker : String
  shares : ℤ
  avg_price : ℚ
  current_price : ℚ
  entry_date : String
  stop_loss : Option ℚ
  take_profit : Option ℚ
deriving Repr

/-- `Position.market_value`: `shares * current_price`. -/
def Position.market_value (p : Position) : ℚ := (p.shares : ℚ) * p.current_price

/-- `Position.cost_basis`: `shares * avg_price`. -/
def Position.cost_basis (p : Position) : ℚ := (p.shares : ℚ) * p.avg_price

/-- `Position.pnl`: unrealized P&L. -/
def Position.pnl (p : Position) : ℚ := p.market_value - p.cost_basis

/-- `Position.pnl_pct`: `(pnl / cost_basis) * 100 if cost_basis > 0 else 0.0`. -/
def Position.pnl_pct (p : Position) : ℚ :=
  if 0 < p.cost_basis then p.pnl / p.cost_basis * 100 else 0

/-- `Position.should_stop_loss`: `current_price <= stop_loss` when set. -/
def Position.should_stop_loss (p : Position) : Bool :=
  match p.stop_loss with
  | none => false
  | some sl => decide (p.current_price ≤ sl)

/-- `Position.should_take_profit`: `current_price >= take_profit` when set. -/
def Position.should_take_profit (p : Position) : Bool :=
  match p.take_profit with
  | none => false
  | some tp => decide (tp ≤ p.current_price)

inductive TradeAction where
  | BUY
  | SELL
  | INTEREST
deriving Repr, DecidableEq

/-- `Trade` dataclass (portifolio.py): one appended ledger row. -/
structure Trade where
  date : String
  ticker : String
  action : TradeAction
  shares : ℤ
  price : ℚ
  commission : ℚ
  total_cost : ℚ
  reason : String
deriving Repr

/-- One row of `Portfolio.history` (columns of the `history` dict). -/
structure HistRecord where
  date : String
  total_value : ℚ
  cash : ℚ
  positions_value : ℚ
  num_positions : ℕ
  returns : ℚ
deriving Repr

/-- The `Portfolio` object state. -/
structure Portfolio where
  initial_capital : ℚ
  cash : ℚ
  commission_pct : ℚ
  min_position_size : ℚ
  max_position_size : ℚ
  positions : List (String × Position)
  trades : List Trade
  history : List HistRecord
deriving Repr

/-- `Portfolio.__init__`. -/
def Portfolio.fresh (initial_capital commission_pct min_position_size max_position_size : ℚ) :
    Portfolio :=
  { initial_capital := initial_capital
    cash := initial_capital
    commission_pct := commission_pct
    min_position_size := min_position_size
    max_position_size := max_position_size
    positions := []
    trades := []
    history := [] }

/-- `Portfolio.positions_value` property. -/
def Portfolio.positions_value (pf : Portfolio) : ℚ :=
  (pf.positions.map (fun x => x.2.market_value)).sum

/-- `Portfolio.total_value` property: `cash + positions_value`. -/
def Portfolio.total_value (pf : Portfolio) : ℚ := pf.cash + pf.positions_value

/-- `Portfolio.num_positions` property. -/
def Portfolio.num_positions (pf : Portfolio) : ℕ := pf.positions.length

/-- `Portfolio.exposure` property:
`(positions_value / total_value) * 100 if total_value > 0 else 0.0`. -/
def Portfolio.exposure (pf : Portfolio) : ℚ :=
  if 0 < pf.total_value then pf.positions_value / pf.total_value * 100 else 0

/-- In-place update of the entry keyed `tk` in a ticker-keyed dict. -/
def updateKey (ps : List (String × Position)) (tk : String) (p : Position) :
    List (String × Position) :=
  ps.map (fun x => if x.1 = tk then (tk, p) else x)

/-- `del dict[tk]`. -/
def eraseKey (ps : List (String × Position)) (tk : String) : List (String × Position) :=
  ps.filter (fun x => x.1 ≠ tk)

/-- `Portfolio.update_prices`: marks every held ticker present in `prices`. -/
def Portfolio.update_prices (pf : Portfolio) (prices : List (String × ℚ)) : Portfolio :=
  { pf with
    positions := pf.positions.map (fun x =>
      match prices.lookup x.1 with
      | some p => (x.1, { x.2 with current_price := p })
      | none => x) }

/-- The data embedded in the human-readable reason strings `can_buy` returns
(the f-string text itself carries exactly these numbers). -/
inductive CanBuyMsg where
  | belowMin (target_pct min_pct : ℚ)
  | incrementTooSmall (increment_pct : ℚ)
  | insufficientCash (cash_now required_cash : ℚ)
  | ok
deriving Repr

/-- Tail of `Portfolio.can_buy` from the `required_cash` computation on,
as a state-passing method (the method never writes to `self`). -/
def Portfolio.canBuyCashS (pf : Portfolio) (target_value : ℚ) :
    Portfolio × (Bool × ℤ × CanBuyMsg) :=
  let required_cash := target_value * (1 + pf.commission_pct)
  if pf.cash < required_cash then
    let tv := pf.cash / (1 + pf.commission_pct)
    if tv < pf.total_value * pf.min_position_size then
      (pf, (false, 0, .insufficientCash pf.cash required_cash))
    else (pf, (true, pyInt tv, .ok))
  else (pf, (true, pyInt target_value, .ok))

/-- `Portfolio.can_buy` as a state-passing method (statement-for-statement;
the Python body contains no assignment to `self`). -/
def Portfolio.can_buyS (pf : Portfolio) (ticker : String) (target_pct : ℚ) :
    Portfolio × (Bool × ℤ × CanBuyMsg) :=
  if target_pct < pf.min_position_size * 100 then
    (pf, (false, 0, .belowMin target_pct (pf.min_position_size * 100)))
  else
    let tp := if pf.max_position_size * 100 < target_pct then pf.max_position_size * 100
              else target_pct
    let target_value := tp / 100 * pf.total_value
    match pf.positions.lookup ticker with
    | some pos =>
      let additional_value := target_value - pos.market_value
      if additional_value < pf.total_value * pf.min_position_size then
        (pf, (false, 0, .incrementTooSmall (additional_value / pf.total_value * 100)))
      else pf.canBuyCashS additional_value
    | none => pf.canBuyCashS target_value

/-- The `(allowed, value, reason)` tuple `can_buy` returns. -/
def Portfolio.can_buy (pf : Portfolio) (ticker : String) (target_pct : ℚ) :
    Bool × ℤ × CanBuyMsg :=
  (pf.can_buyS ticker target_pct).2

/-- Python `if x: field = x` on an optional float: `0.0` and `None` are falsy. -/
def truthyUpdate (new fallback : Option ℚ) : Option ℚ :=
  match new with
  | some v => if v = 0 then fallback else some v
  | none => fallback

/-- Tail of `Portfolio.buy` after the share count is final: deduct cash,
create or merge the position, append the BUY trade. -/
def Portfolio.buyExec (pf : Portfolio) (ticker : String) (price : ℚ) (date : String)
    (stop_loss take_profit : Option ℚ) (reason : String) (shares : ℤ) :
    Portfolio × Option Trade :=
  let trade_value := (shares : ℚ) * price
  let commission := trade_value * pf.commission_pct
  let total_cost := trade_value + commission
  let positions' :=
    match pf.positions.lookup ticker with
    | some pos =>
      let old_cost := (pos.shares : ℚ) * pos.avg_price
      let new_cost := (shares : ℚ) * price
      let shares' := pos.shares + shares
      updateKey pf.positions ticker
        { pos with
          shares := shares'
          avg_price := (old_cost + new_cost) / (shares' : ℚ)
          current_price := price
          stop_loss := truthyUpdate stop_loss pos.stop_loss
          take_profit := truthyUpdate take_profit pos.take_profit }
    | none =>
      pf.positions ++ [(ticker,
        { ticker := ticker, shares := shares, avg_price := price, current_price := price
          entry_date := date, stop_loss := stop_loss, take_profit := take_profit })]
  let trade : Trade :=
    { date := date, ticker := ticker, action := .BUY, shares := shares, price := price
      commission := commission, total_cost := total_cost, reason := reason }
  ({ pf with
      cash := pf.cash - total_cost
      positions := positions'
      trades := pf.trades ++ [trade] },
    some trade)

/-- `Portfolio.buy`. The no-shrink branch reuses the already computed
`trade_value`/`commission`/`total_cost`; `buyExec` recomputes the same
expressions from the same share count. -/
def Portfolio.buy (pf : Portfolio) (ticker : String) (price target_pct : ℚ) (date : String)
    (stop_loss take_profit : Option ℚ) (reason : String) : Portfolio × Option Trade :=
  match pf.can_buyS ticker target_pct with
  | (pf0, (ok, target_value, _)) =>
    if ok then
      let shares := pyInt ((target_value : ℚ) / price)
      if shares = 0 then (pf0, none)
      else
        let trade_value := (shares : ℚ) * price
        let commission := trade_value * pf0.commission_pct
        let total_cost := trade_value + commission
        if pf0.cash < total_cost then
          let shares2 := pyInt (pf0.cash / (price * (1 + pf0.commission_pct)))
          if shares2 = 0 then (pf0, none)
          else pf0.buyExec ticker price date stop_loss take_profit reason shares2
        else pf0.buyExec ticker price date stop_loss take_profit reason shares
    else (pf0, none)

/-- `Portfolio.sell`. -/
def Portfolio.sell (pf : Portfolio) (ticker : String) (price : ℚ) (date : String)
    (sharesOpt : Option ℤ) (reason : String) : Portfolio × Option Trade :=
  match pf.positions.lookup ticker with
  | none => (pf, none)
  | some pos =>
    let shares := sharesOpt.getD pos.shares
    let shares := min shares pos.shares
    if shares = 0 then (pf, none)
    else
      let trade_value := (shares : ℚ) * price
      let commission := trade_value * pf.commission_pct
      let net_proceeds := trade_value - commission
      let newShares := pos.shares - shares
      let positions' :=
        if newShares = 0 then eraseKey pf.positions ticker
        else updateKey pf.positions ticker { pos with shares := newShares }
      let trade : Trade :=
        { date := date, ticker := ticker, action := .SELL, shares := shares, price := price
          commission := commission, total_cost := -net_proceeds, reason := reason }
      ({ pf with
          cash := pf.cash + net_proceeds
          positions := positions'
          trades := pf.trades ++ [trade] },
        some trade)

/-- The sequential sell loop at the end of `Portfolio.check_stops`. -/
def Portfolio.sellList (pf : Portfolio) (date : String) :
    List (String × ℚ × String) → Portfolio × List Trade
  | [] => (pf, [])
  | t :: rest =>
    let r := pf.sell t.1 t.2.1 date none t.2.2
    let r' := r.1.sellList date rest
    (r'.1, (match r.2 with | some tr => tr :: r'.2 | none => r'.2))

/-- `Portfolio.check_stops`: collect triggered tickers first, then sell. -/
def Portfolio.check_stops (pf : Portfolio) (date : String) : Portfolio × List Trade :=
  let tickers_to_close := pf.positions.filterMap (fun x =>
    if x.2.should_stop_loss then some (x.1, x.2.current_price, "STOP_LOSS")
    else if x.2.should_take_profit then some (x.1, x.2.current_price, "TAKE_PROFIT")
    else none)
  pf.sellList date tickers_to_close

/-- `Portfolio.apply_selic_to_cash`. -/
def Portfolio.apply_selic_to_cash (pf : Portfolio) (date : String) (selic_daily_rate : ℚ) :
    Portfolio :=
  if 0 < pf.cash then
    let interest := pf.cash * selic_daily_rate
    let trade : Trade :=
      { date := date
        ticker := "SELIC"
        action := .INTEREST
        shares := 0
        price := 0
        commission := 0
        total_cost := -interest
        reason := "SELIC_YIELD" }
    { pf with
      cash := pf.cash + interest
      trades := pf.trades ++ [trade] }
  else pf

/-- `Portfolio.record_state`. -/
def Portfolio.record_state (pf : Portfolio) (date : String) : Portfolio :=
  let total := pf.total_value
  let daily_return :=
    match pf.history.getLast? with
    | some prev => if 0 < prev.total_value then (total / prev.total_value - 1) * 100 else 0
    | none => 0
  let rec0 : HistRecord :=
    { date := date
      total_value := total
      cash := pf.cash
      positions_value := pf.positions_value
      num_positions := pf.num_positions
      returns := daily_return }
  { pf with history := pf.history ++ [rec0] }

/-- The dict returned by `Portfolio.summary`. -/
structure Summary where
  initial_capital : ℚ
  current_value : ℚ
  cash : ℚ
  positions_value : ℚ
  num_positions : ℕ
  total_return_pct : ℚ
  total_return_brl : ℚ
  exposure_pct : ℚ
  num_trades : ℕ
deriving Repr

/-- `Portfolio.summary`. -/
def Portfolio.summary (pf : Portfolio) : Summary :=
  { initial_capital := pf.initial_capital
    current_value := pf.total_value
    cash := pf.cash
    positions_value := pf.positions_value
    num_positions := pf.num_positions
    total_return_pct := (pf.total_value / pf.initial_capital - 1) * 100
    total_return_brl := pf.total_value - pf.initial_capital
    exposure_pct := pf.exposure
    num_trades := pf.trades.length }

/-- One driver-issued call on the Portfolio. -/
inductive Op where
  | buy (ticker : String) (price target_pct : ℚ) (date : String)
        (stop_loss take_profit : Option ℚ) (reason : String)
  | sell (ticker : String) (price : ℚ) (date : String) (shares : Option ℤ) (reason : String)
  | interest (date : String) (rate : ℚ)
  | mark (prices : List (String × ℚ))
  | checkStops (date : String)
  | recordState (date : String)

/-- Well-formed driver input: positive buy prices, non-negative sell prices and
share counts, non-negative daily rates and mark prices (the spec treats
negative prices / share counts as driver faults, out of the normal domain). -/
def WFop : Op → Prop
  | .buy _ price _ _ _ _ _ => 0 < price
  | .sell _ price _ sharesOpt _ =>
      0 ≤ price ∧ (match sharesOpt with | none => True | some n => 0 ≤ n)
  | .interest _ rate => 0 ≤ rate
  | .mark prices => ∀ p ∈ prices, 0 ≤ p.2
  | .checkStops _ => True
  | .recordState _ => True

instance : DecidablePred WFop := fun op => by
  cases op with
  | sell tk price date sharesOpt reason =>
      cases sharesOpt <;> (simp only [WFop]; infer_instance)
  | _ => (simp only [WFop]; infer_instance)

/-- Apply one driver call, discarding the returned trade value. -/
def step (pf : Portfolio) : Op → Portfolio
  | .buy tk price tpct date sl tp reason => (pf.buy tk price tpct date sl tp reason).1
  | .sell tk price date sh reason => (pf.sell tk price date sh reason).1
  | .interest date rate => pf.apply_selic_to_cash date rate
  | .mark prices => pf.update_prices prices
  | .checkStops date => (pf.check_stops date).1
  | .recordState date => pf.record_state date

/-- Run a sequence of driver calls left to right. -/
def runOps (pf : Portfolio) (ops : List Op) : Portfolio := ops.foldl step pf

/- ===================== metrics.py ===================== -/

/-- pandas `Series.mean()` over a list of known values. -/
def meanQ (xs : List ℚ) : ℚ := xs.sum / (xs.length : ℚ)

/-- pandas `Series.std()` (sample standard deviation, `ddof=1`), with the
square root left as the parameter `sqrtQ`. -/
def stdQ (sqrtQ : ℚ → ℚ) (xs : List ℚ) : ℚ :=
  sqrtQ ((xs.map (fun x => (x - meanQ xs) ^ 2)).sum / ((xs.length : ℚ) - 1))

/-- pandas `Series.cumprod()` helper carrying the running product. -/
def cumprodAux (a : ℚ) : List ℚ → List ℚ
  | [] => []
  | x :: xs => (a * x) :: cumprodAux (a * x) xs

/-- pandas `Series.cumprod()`. -/
def cumprod (xs : List ℚ) : List ℚ := cumprodAux 1 xs

/-- pandas `Series.expanding().max()` helper carrying the running maximum. -/
def runMaxAux (m : ℚ) : List ℚ → List ℚ
  | [] => []
  | x :: xs => (max m x) :: runMaxAux (max m x) xs

/-- pandas `Series.expanding().max()`. -/
def runMax : List ℚ → List ℚ
  | [] => []
  | x :: xs => x :: runMaxAux x xs

/-- pandas `Series.min()` of a non-empty series (0 on empty, unused). -/
def listMin : List ℚ → ℚ
  | [] => 0
  | x :: xs => xs.foldl min x

/-- pandas `Series.max()` of a non-empty series (0 on empty, unused). -/
def listMax : List ℚ → ℚ
  | [] => 0
  | x :: xs => xs.foldl max x

/-- The scalar set `calculate_metrics` returns. -/
structure Metrics where
  total_return_pct : ℚ
  annualized_return_pct : ℚ
  volatility_annual_pct : ℚ
  sharpe : ℚ
  max_drawdown_pct : ℚ
  calmar : ℚ
  win_rate_pct : ℚ
  best_day_pct : ℚ
  worst_day_pct : ℚ
  cdi_total_return_pct : ℚ
  outperformance_pct : ℚ
  num_days : ℕ
  num_years : ℚ
deriving Repr

/-- Body of `calculate_metrics` once the fractional return series (first row
dropped), the first/last `total_value` and the row count are extracted.
`sqrtQ` stands for `np.sqrt` and `powQ x y` for float `x ** y`. -/
def calculate_metricsCore (sqrtQ : ℚ → ℚ) (powQ : ℚ → ℚ → ℚ) (returns : List ℚ)
    (initial_value final_value : ℚ) (num_days : ℕ) (cdi_series : Option (List ℚ))
    (risk_free_rate : ℚ) : Metrics :=
  let value_ratio := final_value / initial_value
  let total_return := (value_ratio - 1) * 100
  let years : ℚ := (num_days : ℚ) / 252
  let annualized_return := if 0 < years then (powQ value_ratio (1 / years) - 1) * 100 else 0
  let volatility_annual := stdQ sqrtQ returns * sqrtQ 252 * 100
  let excess_returns :=
    match cdi_series with
    | some cdi => List.zipWith (fun a b => a - b) returns (cdi.drop 1)
    | none =>
      let daily_rf := powQ (1 + risk_free_rate) (1 / 252) - 1
      returns.map (fun r => r - daily_rf)
  let sharpe :=
    if 0 < stdQ sqrtQ excess_returns then
      meanQ excess_returns / stdQ sqrtQ excess_returns * sqrtQ 252
    else 0
  let cumulative := cumprod (returns.map (fun r => 1 + r))
  let running_max := runMax cumulative
  let drawdown := List.zipWith (fun cu m => (cu - m) / m) cumulative running_max
  let max_drawdown := listMin drawdown * 100
  let calmar := if max_drawdown ≠ 0 then |annualized_return / max_drawdown| else 0
  let win_rate := ((returns.countP (fun r => decide (0 < r)) : ℚ) / (returns.length : ℚ)) * 100
  let cdi_pair :=
    match cdi_series with
    | some cdi =>
      let cdi_cumulative := cumprod ((cdi.drop 1).map (fun r => 1 + r))
      let ct := (cdi_cumulative.getLast?.getD 0 - 1) * 100
      (ct, total_return - ct)
    | none =>
      let ct := (powQ (1 + risk_free_rate) years - 1) * 100
      (ct, total_return - ct)
  { total_return_pct := total_return
    annualized_return_pct := annualized_return
    volatility_annual_pct := volatility_annual
    sharpe := sharpe
    max_drawdown_pct := max_drawdown
    calmar := calmar
    win_rate_pct := win_rate
    best_day_pct := listMax returns * 100
    worst_day_pct := listMin returns * 100
    cdi_total_return_pct := cdi_pair.1
    outperformance_pct := cdi_pair.2
    num_days := num_days
    num_years := years }

/-- `calculate_metrics` (metrics.py): `{}` on insufficient history is `none`. -/
def calculate_metrics (sqrtQ : ℚ → ℚ) (powQ : ℚ → ℚ → ℚ)
    (portfolio_history : List HistRecord) (cdi_series : Option (List ℚ))
    (risk_free_rate : ℚ) : Option Metrics :=
  if portfolio_history.length < 2 then none
  else
    let returns := (portfolio_history.map (fun h => h.returns / 100)).drop 1
    if returns.length = 0 then none
    else
      some (calculate_metricsCore sqrtQ powQ returns
        ((portfolio_history.map HistRecord.total_value).headI)
        ((portfolio_history.map HistRecord.total_value).getLast?.getD 0)
        portfolio_history.length cdi_series risk_free_rate)

/- ===================== Benchmark Aligner ===================== -/

/-- pandas `fillna(method='ffill')` over an Option-valued series, carrying the
most recent known value. -/
def ffill (last : Option ℚ) : List (Option ℚ) → List (Option ℚ)
  | [] => []
  | x :: xs =>
    match x with
    | some v => some v :: ffill (some v) xs
    | none => last :: ffill last xs

/-- pandas `fillna(v)`: filling with `NaN` (here `none`) leaves gaps in place. -/
def fillna (v : Option ℚ) (xs : List (Option ℚ)) : List (Option ℚ) :=
  match v with
  | none => xs
  | some w => xs.map (fun x => some (x.getD w))

/-- pandas `Series.mean()`: `NaN` (`none`) on an empty series. -/
def seriesMean (xs : List ℚ) : Option ℚ :=
  if xs.isEmpty then none else some (xs.sum / (xs.length : ℚ))

/-- `align_cdi_to_portfolio` (metrics.py): reindex onto the portfolio date
axis, forward-fill, then fill any remaining gap with the source mean.
Dates are modelled as naturals, the source series as a date-keyed list. -/
def align_cdi_to_portfolio (portfolio_dates : List ℕ) (cdi_df : List (ℕ × ℚ)) :
    List (Option ℚ) :=
  let cdi_aligned := portfolio_dates.map (fun d => cdi_df.lookup d)
  let cdi_aligned := ffill none cdi_aligned
  if cdi_aligned.any Option.isNone then
    fillna (seriesMean (cdi_df.map (fun x => x.2))) cdi_aligned
  else cdi_aligned

/- ============ Spec-side reference definitions (refinement targets) ============ -/

/-- Spec 4.3 step 6, stated pointwise: the cumulative product of
`1 + r` over the first `i+1` returns. -/
def specCum (rs : List ℚ) (i : ℕ) : ℚ := ((rs.take (i + 1)).map (fun r => 1 + r)).prod

/-- Spec 4.3 step 6: running maximum of the cumulative-product series. -/
def specRunMax (rs : List ℚ) (i : ℕ) : ℚ := listMax ((List.range (i + 1)).map (specCum rs))

/-- Spec 4.3 step 6: drawdown at point `i`. -/
def specDrawdownAt (rs : List ℚ) (i : ℕ) : ℚ :=
  (specCum rs i - specRunMax rs i) / specRunMax rs i

/-- Spec 4.3 step 6: the most negative drawdown over the whole series, as a
percentage: the trough-to-peak value of the cumulative-product series. -/
def specMaxDrawdown (rs : List ℚ) : ℚ :=
  listMin ((List.range rs.length).map (specDrawdownAt rs)) * 100

/-- Scaling a history row: `total_value` scaled, recorded returns unchanged. -/
def scaleRecord (k : ℚ) (h : HistRecord) : HistRecord := { h with total_value := k * h.total_value }

/- ===================== Invariants and helper lemmas ===================== -/

/-- Sane constructor parameters (the defaults are `0.001`, `0.01`, `0.15`). -/
def ParamsOK (pf : Portfolio) : Prop :=
  0 ≤ pf.commission_pct ∧ pf.commission_pct ≤ 1 ∧
    0 ≤ pf.min_position_size ∧ 0 ≤ pf.max_position_size

/-- The state invariant: non-negative cash, every held position has a
strictly positive share count and a non-negative mark price. -/
def StateOK (pf : Portfolio) : Prop :=
  0 ≤ pf.cash ∧ ∀ x ∈ pf.positions, 0 < x.2.shares ∧ 0 ≤ x.2.current_price

def GoodState (pf : Portfolio) : Prop := ParamsOK pf ∧ StateOK pf

theorem pyInt_nonneg {q : ℚ} (h : 0 ≤ q) : 0 ≤ pyInt q := by
  simp only [pyInt, if_pos h]
  exact Int.floor_nonneg.mpr h

theorem pyInt_cast_le {q : ℚ} (h : 0 ≤ q) : (pyInt q : ℚ) ≤ q := by
  simp only [pyInt, if_pos h]
  exact Int.floor_le q

theorem pyInt_eq_of {q : ℚ} {n : ℤ} (h0 : 0 ≤ q) (h1 : (n : ℚ) ≤ q) (h2 : q < n + 1) :
    pyInt q = n := by
  simp only [pyInt, if_pos h0]
  exact Int.floor_eq_iff.mpr ⟨h1, by exact_mod_cast h2⟩

theorem pyInt_intCast (n : ℤ) : pyInt (n : ℚ) = n := by
  unfold pyInt
  rcases le_or_lt 0 ((n : ℚ)) with h | h
  · rw [if_pos h, Int.floor_intCast]
  · rw [if_neg (not_le.mpr h), ← Int.cast_neg, Int.floor_intCast, neg_neg]

theorem lookup_mem {α β : Type} [BEq α] [LawfulBEq α] :
    ∀ {ps : List (α × β)} {k : α} {v : β}, ps.lookup k = some v → (k, v) ∈ ps := by
  intro ps
  induction ps with
  | nil => intro k v h; simp [List.lookup] at h
  | cons x xs ih =>
    intro k v h
    rcases x with ⟨a, b⟩
    by_cases hk : k = a
    · subst hk
      simp only [List.lookup, beq_self_eq_true, Option.some.injEq] at h
      subst h
      exact List.mem_cons_self _ _
    · simp only [List.lookup, beq_eq_false_iff_ne.mpr hk] at h
      exact List.mem_cons_of_mem _ (ih h)

theorem lookup_append_of_lookup_eq_none {α β : Type} [BEq α] [LawfulBEq α] :
    ∀ {ps : List (α × β)} {k : α}, ps.lookup k = none → ∀ v : β,
      (ps ++ [(k, v)]).lookup k = some v := by
  intro ps
  induction ps with
  | nil => intro k _ v; simp [List.lookup]
  | cons x xs ih =>
    intro k h v
    rcases x with ⟨a, b⟩
    by_cases hk : k = a
    · subst hk
      simp [List.lookup] at h
    · simp only [List.lookup, beq_eq_false_iff_ne.mpr hk] at h
      rw [List.cons_append]
      simp only [List.lookup, beq_eq_false_iff_ne.mpr hk]
      exact ih h v

theorem mem_updateKey {ps : List (String × Position)} {tk : String} {p : Position}
    {x : String × Position} (h : x ∈ updateKey ps tk p) : x = (tk, p) ∨ x ∈ ps := by
  rcases List.mem_map.mp h with ⟨y, hy, hyx⟩
  by_cases hk : y.1 = tk
  · left; rw [← hyx]; simp [hk]
  · right; rw [← hyx]; simpa [hk] using hy

theorem mem_eraseKey {ps : List (String × Position)} {tk : String}
    {x : String × Position} (h : x ∈ eraseKey ps tk) : x ∈ ps :=
  List.mem_of_mem_filter h

theorem positions_value_nonneg {pf : Portfolio} (h : StateOK pf) : 0 ≤ pf.positions_value := by
  apply List.sum_nonneg
  intro q hq
  rcases List.mem_map.mp hq with ⟨x, hx, rfl⟩
  have hx' := h.2 x hx
  exact mul_nonneg (by exact_mod_cast hx'.1.le) hx'.2

theorem total_value_nonneg {pf : Portfolio} (h : StateOK pf) : 0 ≤ pf.total_value :=
  add_nonneg h.1 (positions_value_nonneg h)

theorem can_buyS_fst (pf : Portfolio) (ticker : String) (target_pct : ℚ) :
    (pf.can_buyS ticker target_pct).1 = pf := by
  unfold Portfolio.can_buyS Portfolio.canBuyCashS
  dsimp only
  repeat' split
  all_goals rfl

theorem canBuyCashS_true_nonneg {pf : Portfolio} {tv : ℚ} {v : ℤ} {m : CanBuyMsg}
    (hc : 0 ≤ pf.commission_pct) (hcash : 0 ≤ pf.cash) (htv : 0 ≤ tv)
    (h : (pf.canBuyCashS tv).2 = (true, v, m)) : 0 ≤ v := by
  unfold Portfolio.canBuyCashS at h
  have h1c : (0 : ℚ) < 1 + pf.commission_pct := by linarith
  dsimp only at h
  split at h
  · split at h
    · simp at h
    · simp only [Prod.mk.injEq] at h
      rcases h with ⟨-, h, -⟩
      rw [← h]
      exact pyInt_nonneg (div_nonneg hcash h1c.le)
  · simp only [Prod.mk.injEq] at h
    rcases h with ⟨-, h, -⟩
    rw [← h]
    exact pyInt_nonneg htv

theorem can_buy_true_nonneg {pf : Portfolio} {tk : String} {t : ℚ} {v : ℤ} {m : CanBuyMsg}
    (hg : GoodState pf) (h : pf.can_buy tk t = (true, v, m)) : 0 ≤ v := by
  obtain ⟨⟨hc0, hc1, hmin, hmax⟩, hstate⟩ := hg
  have htot : 0 ≤ pf.total_value := total_value_nonneg hstate
  unfold Portfolio.can_buy Portfolio.can_buyS at h
  dsimp only at h
  split at h
  · simp at h
  · rename_i hnotlow
    push_neg at hnotlow
    set tp := if pf.max_position_size * 100 < t then pf.max_position_size * 100 else t
      with htpdef
    have htp : 0 ≤ tp := by
      rw [htpdef]
      split
      · positivity
      · linarith
    have htv0 : 0 ≤ tp / 100 * pf.total_value :=
      mul_nonneg (div_nonneg htp (by norm_num)) htot
    split at h
    · rename_i pos heq
      split at h
      · simp at h
      · rename_i hbig
        push_neg at hbig
        exact canBuyCashS_true_nonneg hc0 hstate.1
          (le_trans (mul_nonneg htot hmin) hbig) h
    · exact canBuyCashS_true_nonneg hc0 hstate.1 htv0 h

theorem buyExec_good {pf : Portfolio} {tk : String} {price : ℚ} {date : String}
    {sl tp : Option ℚ} {reason : String} {shares : ℤ}
    (hg : GoodState pf) (hp : 0 < price) (hs : 0 < shares)
    (hcost : (shares : ℚ) * price + (shares : ℚ) * price * pf.commission_pct ≤ pf.cash) :
    GoodState (pf.buyExec tk price date sl tp reason shares).1 := by
  obtain ⟨hpar, hcash, hposinv⟩ := hg
  unfold Portfolio.buyExec
  dsimp only
  refine ⟨hpar, ?_, ?_⟩
  · dsimp only
    linarith
  · intro x hx
    dsimp only at hx
    split at hx
    · rename_i pos heq
      have hpos := hposinv _ (lookup_mem heq)
      rcases mem_updateKey hx with rfl | hxm
      · exact ⟨by dsimp only; exact add_pos hpos.1 hs, hp.le⟩
      · exact hposinv x hxm
    · rcases List.mem_append.mp hx with hxm | hx1
      · exact hposinv x hxm
      · simp only [List.mem_singleton] at hx1
        subst hx1
        exact ⟨hs, hp.le⟩

theorem buy_good {pf : Portfolio} {tk : String} {price tpct : ℚ} {date : String}
    {sl tp : Option ℚ} {reason : String}
    (hg : GoodState pf) (hp : 0 < price) :
    GoodState (pf.buy tk price tpct date sl tp reason).1 := by
  have hfst := can_buyS_fst pf tk tpct
  unfold Portfolio.buy
  rcases hr : pf.can_buyS tk tpct with ⟨pf0, ok, tv, m⟩
  have hpf0 : pf0 = pf := by rw [← hfst, hr]
  subst hpf0
  dsimp only
  cases ok with
  | false => exact hg
  | true =>
    have htv : 0 ≤ tv := by
      apply can_buy_true_nonneg hg
      unfold Portfolio.can_buy
      rw [hr]
    have hc0 : 0 ≤ pf0.commission_pct := hg.1.1
    by_cases hsh : pyInt ((tv : ℚ) / price) = 0
    · rw [if_pos rfl, if_pos hsh]
      exact hg
    · rw [if_pos rfl, if_neg hsh]
      have hs0 : 0 ≤ pyInt ((tv : ℚ) / price) :=
        pyInt_nonneg (div_nonneg (by exact_mod_cast htv) hp.le)
      have hspos : 0 < pyInt ((tv : ℚ) / price) := lt_of_le_of_ne hs0 (Ne.symm hsh)
      have h1c : (0 : ℚ) < 1 + pf0.commission_pct := by linarith
      by_cases hover : pf0.cash <
          (pyInt ((tv : ℚ) / price) : ℚ) * price +
            (pyInt ((tv : ℚ) / price) : ℚ) * price * pf0.commission_pct
      · rw [if_pos hover]
        have harg : 0 ≤ pf0.cash / (price * (1 + pf0.commission_pct)) :=
          div_nonneg hg.2.1 (by positivity)
        by_cases hsh2 : pyInt (pf0.cash / (price * (1 + pf0.commission_pct))) = 0
        · rw [if_pos hsh2]
          exact hg
        · rw [if_neg hsh2]
          have hs2pos : 0 < pyInt (pf0.cash / (price * (1 + pf0.commission_pct))) :=
            lt_of_le_of_ne (pyInt_nonneg harg) (Ne.symm hsh2)
          apply buyExec_good hg hp hs2pos
          have hle : ((pyInt (pf0.cash / (price * (1 + pf0.commission_pct))) : ℚ)) ≤
              pf0.cash / (price * (1 + pf0.commission_pct)) := pyInt_cast_le harg
          have hmul : (0 : ℚ) < price * (1 + pf0.commission_pct) := by positivity
          calc (pyInt (pf0.cash / (price * (1 + pf0.commission_pct))) : ℚ) * price +
                (pyInt (pf0.cash / (price * (1 + pf0.commission_pct))) : ℚ) * price *
                  pf0.commission_pct
              = (pyInt (pf0.cash / (price * (1 + pf0.commission_pct))) : ℚ) *
                  (price * (1 + pf0.commission_pct)) := by ring
            _ ≤ pf0.cash / (price * (1 + pf0.commission_pct)) *
                  (price * (1 + pf0.commission_pct)) :=
                mul_le_mul_of_nonneg_right hle hmul.le
            _ = pf0.cash := div_mul_cancel₀ _ hmul.ne'
      · rw [if_neg hover]
        push_neg at hover
        exact buyExec_good hg hp hspos hover

theorem sell_good {pf : Portfolio} {tk : String} {price : ℚ} {date : String}
    {sharesOpt : Option ℤ} {reason : String}
    (hg : GoodState pf) (hp : 0 ≤ price)
    (hsh : match sharesOpt with | none => True | some n => 0 ≤ n) :
    GoodState (pf.sell tk price date sharesOpt reason).1 := by
  obtain ⟨hpar, hcash, hposinv⟩ := hg
  unfold Portfolio.sell
  split
  · exact ⟨hpar, hcash, hposinv⟩
  · rename_i pos heq
    have hmem := hposinv _ (lookup_mem heq)
    dsimp only
    have hsold_nonneg : 0 ≤ min (sharesOpt.getD pos.shares) pos.shares := by
      cases sharesOpt with
      | none => simpa using hmem.1.le
      | some n => exact le_min hsh hmem.1.le
    have hsold_le : min (sharesOpt.getD pos.shares) pos.shares ≤ pos.shares :=
      min_le_right _ _
    by_cases hz : min (sharesOpt.getD pos.shares) pos.shares = 0
    · rw [if_pos hz]
      exact ⟨hpar, hcash, hposinv⟩
    · rw [if_neg hz]
      have hsoldpos : 0 < min (sharesOpt.getD pos.shares) pos.shares :=
        lt_of_le_of_ne hsold_nonneg (Ne.symm hz)
      have hc1 : pf.commission_pct ≤ 1 := hpar.2.1
      refine ⟨hpar, ?_, ?_⟩
      · dsimp only
        have hzq : 0 ≤ ((min (sharesOpt.getD pos.shares) pos.shares : ℤ) : ℚ) := by
          exact_mod_cast hsoldpos.le
        nlinarith [mul_nonneg (mul_nonneg hzq hp) (sub_nonneg.mpr hc1), hcash]
      · intro x hx
        dsimp only at hx
        by_cases hrem : pos.shares - min (sharesOpt.getD pos.shares) pos.shares = 0
        · rw [if_pos hrem] at hx
          exact hposinv x (mem_eraseKey hx)
        · rw [if_neg hrem] at hx
          rcases mem_updateKey hx with rfl | hxm
          · refine ⟨?_, hmem.2⟩
            dsimp only
            omega
          · exact hposinv x hxm

theorem sellList_good {date : String} :
    ∀ (lst : List (String × ℚ × String)) (pf : Portfolio), GoodState pf →
      (∀ t ∈ lst, 0 ≤ t.2.1) → GoodState (pf.sellList date lst).1 := by
  intro lst
  induction lst with
  | nil => intro pf hg _; exact hg
  | cons t rest ih =>
    intro pf hg hall
    unfold Portfolio.sellList
    dsimp only
    apply ih
    · exact sell_good hg (hall t (by simp)) trivial
    · intro u hu
      exact hall u (List.mem_cons_of_mem _ hu)

theorem check_stops_good {pf : Portfolio} {date : String} (hg : GoodState pf) :
    GoodState (pf.check_stops date).1 := by
  unfold Portfolio.check_stops
  dsimp only
  apply sellList_good _ _ hg
  intro t ht
  rcases List.mem_filterMap.mp ht with ⟨x, hx, hfx⟩
  have hxp := (hg.2.2 x hx).2
  split at hfx
  · cases hfx
    exact hxp
  · split at hfx
    · cases hfx
      exact hxp
    · cases hfx

theorem update_prices_good {pf : Portfolio} {prices : List (String × ℚ)}
    (hg : GoodState pf) (hpr : ∀ p ∈ prices, 0 ≤ p.2) :
    GoodState (pf.update_prices prices) := by
  obtain ⟨hpar, hcash, hposinv⟩ := hg
  refine ⟨hpar, hcash, ?_⟩
  intro x hx
  rcases List.mem_map.mp hx with ⟨y, hy, hyx⟩
  have hyinv := hposinv y hy
  rw [← hyx]
  split
  · rename_i p heq
    exact ⟨hyinv.1, hpr _ (lookup_mem heq)⟩
  · exact hyinv

theorem apply_selic_good {pf : Portfolio} {date : String} {rate : ℚ}
    (hg : GoodState pf) (hr : 0 ≤ rate) : GoodState (pf.apply_selic_to_cash date rate) := by
  obtain ⟨hpar, hcash, hposinv⟩ := hg
  unfold Portfolio.apply_selic_to_cash
  split
  · exact ⟨hpar, add_nonneg hcash (mul_nonneg hcash hr), hposinv⟩
  · exact ⟨hpar, hcash, hposinv⟩

theorem step_good {pf : Portfolio} {op : Op} (hg : GoodState pf) (hwf : WFop op) :
    GoodState (step pf op) := by
  cases op with
  | buy tk price tpct date sl tp reason => exact buy_good hg hwf
  | sell tk price date sh reason => exact sell_good hg hwf.1 hwf.2
  | interest date rate => exact apply_selic_good hg hwf
  | mark prices => exact update_prices_good hg hwf
  | checkStops date => exact check_stops_good hg
  | recordState date => exact ⟨hg.1, hg.2.1, hg.2.2⟩

theorem runOps_good : ∀ (ops : List Op) (pf : Portfolio), GoodState pf →
    (∀ op ∈ ops, WFop op) → GoodState (runOps pf ops) := by
  intro ops
  induction ops with
  | nil => intro pf hg _; exact hg
  | cons op rest ih =>
    intro pf hg hwf
    exact ih _ (step_good hg (hwf op (by simp)))
      (fun o ho => hwf o (List.mem_cons_of_mem _ ho))

/-- Inversion: a successful `buy` went through `buyExec` with a non-zero share
count obtained from one of the two truncations, after `can_buy` allowed it. -/
theorem buy_some_exec {pf : Portfolio} {tk : String} {price tpct : ℚ} {date : String}
    {sl tp : Option ℚ} {reason : String} {pf' : Portfolio} {tr : Trade}
    (h : pf.buy tk price tpct date sl tp reason = (pf', some tr)) :
    ∃ (s : ℤ) (tv : ℤ) (m : CanBuyMsg), s ≠ 0 ∧ pf.can_buy tk tpct = (true, tv, m) ∧
      pf.buyExec tk price date sl tp reason s = (pf', some tr) ∧
      ((s = pyInt ((tv : ℚ) / price) ∧
          ¬ pf.cash < (s : ℚ) * price + (s : ℚ) * price * pf.commission_pct) ∨
        s = pyInt (pf.cash / (price * (1 + pf.commission_pct)))) := by
  unfold Portfolio.buy at h
  rcases hr : pf.can_buyS tk tpct with ⟨pf0, ok, tv, m⟩
  have hpf0 : pf0 = pf := by rw [← can_buyS_fst pf tk tpct, hr]
  subst hpf0
  rw [hr] at h
  dsimp only at h
  have hcb : pf0.can_buy tk tpct = (ok, tv, m) := by unfold Portfolio.can_buy; rw [hr]
  cases ok with
  | false => simp at h
  | true =>
    rw [if_pos rfl] at h
    by_cases hsh : pyInt ((tv : ℚ) / price) = 0
    · rw [if_pos hsh] at h
      simp at h
    · rw [if_neg hsh] at h
      by_cases hover : pf0.cash < (pyInt ((tv : ℚ) / price) : ℚ) * price +
          (pyInt ((tv : ℚ) / price) : ℚ) * price * pf0.commission_pct
      · rw [if_pos hover] at h
        by_cases hsh2 : pyInt (pf0.cash / (price * (1 + pf0.commission_pct))) = 0
        · rw [if_pos hsh2] at h
          simp at h
        · rw [if_neg hsh2] at h
          exact ⟨_, tv, m, hsh2, hcb, h, Or.inr rfl⟩
      · rw [if_neg hover] at h
        exact ⟨_, tv, m, hsh, hcb, h, Or.inl ⟨rfl, hover⟩⟩

/-- Inversion of `buyExec`: the appended BUY trade's fields and the cash move. -/
theorem buyExec_inv {pf : Portfolio} {tk : String} {price : ℚ} {date : String}
    {sl tp : Option ℚ} {reason : String} {s : ℤ} {pf' : Portfolio} {tr : Trade}
    (h : pf.buyExec tk price date sl tp reason s = (pf', some tr)) :
    tr = { date := date, ticker := tk, action := .BUY, shares := s, price := price
           commission := (s : ℚ) * price * pf.commission_pct
           total_cost := (s : ℚ) * price + (s : ℚ) * price * pf.commission_pct
           reason := reason } ∧
    pf'.cash = pf.cash - ((s : ℚ) * price + (s : ℚ) * price * pf.commission_pct) := by
  unfold Portfolio.buyExec at h
  dsimp only at h
  rw [Prod.mk.injEq] at h
  obtain ⟨hpf, htr⟩ := h
  rw [Option.some_inj] at htr
  subst htr
  refine ⟨rfl, ?_⟩
  rw [← hpf]

/-- The cost bound for the shrunk share count: `⌊cash / (p(1+c))⌋` shares cost
at most `cash`. -/
theorem shrunk_cost_le {cash price c : ℚ} (hcash : 0 ≤ cash) (hp : 0 < price)
    (hc0 : 0 ≤ c) :
    (pyInt (cash / (price * (1 + c))) : ℚ) * price +
      (pyInt (cash / (price * (1 + c))) : ℚ) * price * c ≤ cash := by
  have hmul : (0 : ℚ) < price * (1 + c) := by positivity
  have harg : 0 ≤ cash / (price * (1 + c)) := div_nonneg hcash hmul.le
  have hle : ((pyInt (cash / (price * (1 + c))) : ℚ)) ≤ cash / (price * (1 + c)) :=
    pyInt_cast_le harg
  calc (pyInt (cash / (price * (1 + c))) : ℚ) * price +
        (pyInt (cash / (price * (1 + c))) : ℚ) * price * c
      = (pyInt (cash / (price * (1 + c))) : ℚ) * (price * (1 + c)) := by ring
    _ ≤ cash / (price * (1 + c)) * (price * (1 + c)) :=
        mul_le_mul_of_nonneg_right hle hmul.le
    _ = cash := div_mul_cancel₀ _ hmul.ne'

/- ===================== Claims ===================== -/

/-- C1: for every well-formed sequence of buy/sell/interest (and mark,
check-exits, record-state) calls from a fresh portfolio with sane parameters,
`cash` is non-negative after every call; in particular whenever `buy` executes
a trade — including when it shrinks the integer share count because rounding
pushed the cost over available cash — the deducted `total_cost` never exceeds
the cash held before the deduction. -/
theorem claim_C1_cash_never_negative :
    (∀ (init c minp maxp : ℚ) (ops : List Op),
        0 ≤ init → 0 ≤ c → c ≤ 1 → 0 ≤ minp → 0 ≤ maxp →
        (∀ op ∈ ops, WFop op) →
        0 ≤ (runOps (Portfolio.fresh init c minp maxp) ops).cash) ∧
    (∀ (pf : Portfolio) (tk : String) (price tpct : ℚ) (date : String)
        (sl tp : Option ℚ) (reason : String) (tr : Trade),
        0 ≤ pf.cash → 0 ≤ pf.commission_pct → 0 < price →
        (pf.buy tk price tpct date sl tp reason).2 = some tr →
        tr.total_cost ≤ pf.cash) := by
  constructor
  · intro init c minp maxp ops h0 h1 h2 h3 h4 hwf
    have hg : GoodState (Portfolio.fresh init c minp maxp) :=
      ⟨⟨h1, h2, h3, h4⟩, h0, by intro x hx; cases hx⟩
    exact (runOps_good ops _ hg hwf).2.1
  · intro pf tk price tpct date sl tp reason tr hcash hc0 hp h
    rcases hres : pf.buy tk price tpct date sl tp reason with ⟨pf', otr⟩
    rw [hres] at h
    dsimp only at h
    subst h
    obtain ⟨s, tv, m, hs0, hcb, hexec, hbr⟩ := buy_some_exec hres
    obtain ⟨htr, hcash'⟩ := buyExec_inv hexec
    rw [htr]
    dsimp only
    rcases hbr with ⟨hs_eq, hnot⟩ | hs_eq
    · push_neg at hnot
      exact hnot
    · rw [hs_eq]
      exact shrunk_cost_le hcash hp hc0

/-- Concrete input shared by several witnesses: a zero-commission fresh
portfolio and the trade its first buy produces. -/
def pfA : Portfolio := Portfolio.fresh 100 0 (1/100) (15/100)

def posA : Position :=
  { ticker := "X", shares := 4, avg_price := 2, current_price := 2, entry_date := "d"
    stop_loss := none, take_profit := none }

def trA : Trade :=
  { date := "d", ticker := "X", action := .BUY, shares := 4, price := 2
    commission := 0, total_cost := 8, reason := "SIGNAL" }

def pfA1 : Portfolio :=
  { initial_capital := 100, cash := 92, commission_pct := 0, min_position_size := 1/100
    max_position_size := 15/100, positions := [("X", posA)], trades := [trA], history := [] }

theorem pfA_buy_eval : pfA.buy "X" 2 8 "d" none none "SIGNAL" = (pfA1, some trA) := by
  have h8 : pyInt (8 : ℚ) = 8 := pyInt_eq_of (by norm_num) (by norm_num) (by norm_num)
  have h4 : pyInt (4 : ℚ) = 4 := pyInt_eq_of (by norm_num) (by norm_num) (by norm_num)
  unfold Portfolio.buy Portfolio.can_buyS Portfolio.canBuyCashS Portfolio.buyExec pfA
    Portfolio.fresh
  norm_num [Portfolio.total_value, Portfolio.positions_value, List.lookup, h8, h4,
    pfA1, posA, trA]

/-- Witness for C1 at concrete inputs. -/
theorem claim_C1_cash_never_negative_witness :
    0 ≤ (runOps (Portfolio.fresh 100 (1/1000) (1/100) (15/100))
        [Op.buy "X" 2 8 "d1" none none "SIGNAL",
         Op.sell "X" 2 "d2" none "SIGNAL",
         Op.interest "d3" (35/100000)]).cash ∧
    ((pfA.buy "X" 2 8 "d" none none "SIGNAL").2 = some trA ∧ trA.total_cost ≤ pfA.cash) := by
  have hsome : (pfA.buy "X" 2 8 "d" none none "SIGNAL").2 = some trA := by
    rw [pfA_buy_eval]
  refine ⟨claim_C1_cash_never_negative.1 100 (1/1000) (1/100) (15/100) _
      (by norm_num) (by norm_num) (by norm_num) (by norm_num) (by norm_num) ?_,
    hsome,
    claim_C1_cash_never_negative.2 pfA "X" 2 8 "d" none none "SIGNAL" trA
      (by norm_num [pfA, Portfolio.fresh]) (by norm_num [pfA, Portfolio.fresh])
      (by norm_num) hsome⟩
  intro op hop
  simp only [List.mem_cons, List.not_mem_nil, or_false] at hop
  rcases hop with rfl | rfl | rfl
  · exact (by norm_num : (0 : ℚ) < 2)
  · exact ⟨by norm_num, trivial⟩
  · exact (by norm_num : (0 : ℚ) ≤ 35/100000)

/-- C5: after every well-formed sequence of buy, sell, check-exits, mark and
interest operations, every retained position has a strictly positive share
count — no zero-share position is ever inserted or retained. -/
theorem claim_C5_no_zero_share_position
    (init c minp maxp : ℚ) (ops : List Op)
    (h0 : 0 ≤ init) (h1 : 0 ≤ c) (h2 : c ≤ 1) (h3 : 0 ≤ minp) (h4 : 0 ≤ maxp)
    (hwf : ∀ op ∈ ops, WFop op) :
    ∀ x ∈ (runOps (Portfolio.fresh init c minp maxp) ops).positions, 0 < x.2.shares := by
  have hg : GoodState (Portfolio.fresh init c minp maxp) :=
    ⟨⟨h1, h2, h3, h4⟩, h0, by intro x hx; cases hx⟩
  exact fun x hx => ((runOps_good ops _ hg hwf).2.2 x hx).1

/-- Witness for C5: the position produced by a concrete buy has positive
share count, obtained through the invariant theorem. -/
theorem claim_C5_no_zero_share_position_witness : 0 < posA.shares := by
  have hrun : runOps pfA [Op.buy "X" 2 8 "d" none none "SIGNAL"] = pfA1 := by
    show (pfA.buy "X" 2 8 "d" none none "SIGNAL").1 = pfA1
    rw [pfA_buy_eval]
  have hall := claim_C5_no_zero_share_position 100 0 (1/100) (15/100)
    [Op.buy "X" 2 8 "d" none none "SIGNAL"]
    (by norm_num) (by norm_num) (by norm_num) (by norm_num) (by norm_num)
    (by
      intro op hop
      simp only [List.mem_cons, List.not_mem_nil, or_false] at hop
      subst hop
      exact (by norm_num : (0 : ℚ) < 2))
  have hmem : ("X", posA) ∈ (runOps (Portfolio.fresh 100 0 (1/100) (15/100))
      [Op.buy "X" 2 8 "d" none none "SIGNAL"]).positions := by
    show ("X", posA) ∈ (runOps pfA [Op.buy "X" 2 8 "d" none none "SIGNAL"]).positions
    rw [hrun]
    simp [pfA1]
  exact hall ("X", posA) hmem

/-- C6: `canBuy` with a target weight strictly below `minPositionSize` is
rejected regardless of available cash; a target above `maxPositionSize` is
clamped to the maximum — the call behaves exactly as if the maximum had been
requested — rather than rejected. -/
theorem claim_C6_floor_and_clamp (pf : Portfolio) (tk : String) (t : ℚ) :
    (t < pf.min_position_size * 100 → (pf.can_buy tk t).1 = false) ∧
    (pf.min_position_size ≤ pf.max_position_size → pf.max_position_size * 100 < t →
      pf.can_buy tk t = pf.can_buy tk (pf.max_position_size * 100)) := by
  constructor
  · intro hlow
    unfold Portfolio.can_buy Portfolio.can_buyS
    rw [if_pos hlow]
  · intro hminmax hhigh
    have hnotlow : ¬ t < pf.min_position_size * 100 := by
      push_neg
      calc pf.min_position_size * 100 ≤ pf.max_position_size * 100 := by linarith
        _ ≤ t := hhigh.le
    have hnotlow2 : ¬ pf.max_position_size * 100 < pf.min_position_size * 100 := by
      push_neg
      linarith
    unfold Portfolio.can_buy Portfolio.can_buyS
    rw [if_neg hnotlow, if_neg hnotlow2, if_pos hhigh, if_neg (lt_irrefl _)]

/-- Witness for C6 at concrete inputs. -/
theorem claim_C6_floor_and_clamp_witness :
    ((pfA.can_buy "X" (1/2)).1 = false) ∧
    (pfA.can_buy "X" 50 = pfA.can_buy "X" 15) := by
  constructor
  · exact (claim_C6_floor_and_clamp pfA "X" (1/2)).1 (by norm_num [pfA, Portfolio.fresh])
  · have h := (claim_C6_floor_and_clamp pfA "X" 50).2
      (by norm_num [pfA, Portfolio.fresh]) (by norm_num [pfA, Portfolio.fresh])
    have he : pfA.max_position_size * 100 = 15 := by norm_num [pfA, Portfolio.fresh]
    rw [he] at h
    exact h

/-- C10: `can_buy` is a side-effect-free query: the state it passes back is
the very state it was called on — cash, position map, trade ledger and history
unchanged — and calling it again returns the same result. -/
theorem claim_C10_can_buy_pure (pf : Portfolio) (tk : String) (t : ℚ) :
    (pf.can_buyS tk t).1 = pf ∧
    (pf.can_buyS tk t).1.cash = pf.cash ∧
    (pf.can_buyS tk t).1.positions = pf.positions ∧
    (pf.can_buyS tk t).1.trades = pf.trades ∧
    (pf.can_buyS tk t).1.history = pf.history ∧
    ((pf.can_buyS tk t).1.can_buyS tk t).2 = (pf.can_buyS tk t).2 := by
  have h := can_buyS_fst pf tk t
  exact ⟨h, by rw [h], by rw [h], by rw [h], by rw [h], by rw [h]⟩

/-- Inversion of a successful `sell`: the appended SELL row's fields and the
cash move. -/
theorem sell_some_inv {pf : Portfolio} {tk : String} {price : ℚ} {date : String}
    {sharesOpt : Option ℤ} {reason : String} {pf' : Portfolio} {tr : Trade}
    (h : pf.sell tk price date sharesOpt reason = (pf', some tr)) :
    ∃ pos : Position, pf.positions.lookup tk = some pos ∧
      tr.shares = min (sharesOpt.getD pos.shares) pos.shares ∧
      tr.shares ≠ 0 ∧
      tr.action = .SELL ∧ tr.price = price ∧ tr.date = date ∧
      tr.commission = (tr.shares : ℚ) * price * pf.commission_pct ∧
      tr.total_cost = -((tr.shares : ℚ) * price - (tr.shares : ℚ) * price * pf.commission_pct) ∧
      pf'.cash = pf.cash +
        ((tr.shares : ℚ) * price - (tr.shares : ℚ) * price * pf.commission_pct) := by
  unfold Portfolio.sell at h
  split at h
  · simp at h
  · rename_i pos heq
    dsimp only at h
    by_cases hz : min (sharesOpt.getD pos.shares) pos.shares = 0
    · rw [if_pos hz] at h
      simp at h
    · rw [if_neg hz] at h
      rw [Prod.mk.injEq] at h
      obtain ⟨hpf, htr⟩ := h
      rw [Option.some_inj] at htr
      subst htr
      exact ⟨pos, heq, rfl, hz, rfl, rfl, rfl, rfl, rfl, by rw [← hpf]⟩

/-- C2 counterexample: on a concrete portfolio the executed BUY trade records
`total_cost = +8`, strictly positive — not a negative cash delta. -/
theorem claim_C2_counterexample :
    (pfA.buy "X" 2 8 "d" none none "SIGNAL").2 = some trA ∧ 0 < trA.total_cost :=
  ⟨by rw [pfA_buy_eval], by norm_num [trA]⟩

/-- C2 amended: the ledger's sign convention is the opposite of the claim:
`total_cost` records the signed cash *decrease*. Every executed BUY row
carries `total_cost = gross + commission > 0` (outflow positive) and every
executed SELL row carries `total_cost = −(gross − commission) < 0` (inflow
negative); in both cases the new cash equals the old cash minus `total_cost`. -/
theorem claim_C2_sign_convention :
    (∀ (pf : Portfolio) (tk : String) (price tpct : ℚ) (date : String)
        (sl tp : Option ℚ) (reason : String) (pf' : Portfolio) (tr : Trade),
        GoodState pf → 0 < price →
        pf.buy tk price tpct date sl tp reason = (pf', some tr) →
        tr.action = .BUY ∧
        tr.total_cost = (tr.shares : ℚ) * tr.price + tr.commission ∧
        0 < tr.total_cost ∧
        pf'.cash = pf.cash - tr.total_cost) ∧
    (∀ (pf : Portfolio) (tk : String) (price : ℚ) (date : String)
        (sharesOpt : Option ℤ) (reason : String) (pf' : Portfolio) (tr : Trade),
        GoodState pf → 0 < price → pf.commission_pct < 1 →
        (match sharesOpt with | none => True | some n => 0 ≤ n) →
        pf.sell tk price date sharesOpt reason = (pf', some tr) →
        tr.action = .SELL ∧
        tr.total_cost = -((tr.shares : ℚ) * tr.price - tr.commission) ∧
        tr.total_cost < 0 ∧
        pf'.cash = pf.cash - tr.total_cost) := by
  constructor
  · intro pf tk price tpct date sl tp reason pf' tr hg hp h
    obtain ⟨s, tv, m, hs0, hcb, hexec, hbr⟩ := buy_some_exec h
    obtain ⟨htr, hcash'⟩ := buyExec_inv hexec
    have hc0 : 0 ≤ pf.commission_pct := hg.1.1
    have hs_nonneg : 0 ≤ s := by
      rcases hbr with ⟨hs_eq, -⟩ | hs_eq
      · have htv : 0 ≤ tv := can_buy_true_nonneg hg hcb
        rw [hs_eq]
        exact pyInt_nonneg (div_nonneg (by exact_mod_cast htv) hp.le)
      · rw [hs_eq]
        exact pyInt_nonneg (div_nonneg hg.2.1 (by positivity))
    have hspos : 0 < s := lt_of_le_of_ne hs_nonneg (Ne.symm hs0)
    have hsq : (0 : ℚ) < (s : ℚ) := by exact_mod_cast hspos
    subst htr
    refine ⟨rfl, rfl, ?_, ?_⟩
    · dsimp only
      have h1 : (0 : ℚ) < (s : ℚ) * price := mul_pos hsq hp
      have h2 : (0 : ℚ) ≤ (s : ℚ) * price * pf.commission_pct := mul_nonneg h1.le hc0
      linarith
    · exact hcash'
  · intro pf tk price date sharesOpt reason pf' tr hg hp hc1 hshOpt h
    obtain ⟨pos, heq, hsh_eq, hsh0, hact, hpr, hdt, hcom, htc, hcash'⟩ := sell_some_inv h
    have hposmem := hg.2.2 _ (lookup_mem heq)
    have hsold_nonneg : 0 ≤ tr.shares := by
      rw [hsh_eq]
      cases sharesOpt with
      | none => simpa using hposmem.1.le
      | some n => exact le_min hshOpt hposmem.1.le
    have hspos : 0 < tr.shares := lt_of_le_of_ne hsold_nonneg (Ne.symm hsh0)
    have hsq : (0 : ℚ) < (tr.shares : ℚ) := by exact_mod_cast hspos
    have hnetpos : 0 < (tr.shares : ℚ) * price -
        (tr.shares : ℚ) * price * pf.commission_pct := by
      have hf : (0 : ℚ) < (tr.shares : ℚ) * price * (1 - pf.commission_pct) :=
        mul_pos (mul_pos hsq hp) (by linarith)
      nlinarith [hf]
    refine ⟨hact, ?_, ?_, ?_⟩
    · rw [htc, hpr, hcom]
    · rw [htc]
      linarith
    · rw [hcash', htc]
      ring

theorem pfA_good : GoodState pfA := by
  refine ⟨⟨?_, ?_, ?_, ?_⟩, ?_, ?_⟩ <;> norm_num [pfA, Portfolio.fresh]

def trS : Trade :=
  { date := "d2", ticker := "X", action := .SELL, shares := 4, price := 2
    commission := 0, total_cost := -8, reason := "SIGNAL" }

def pfA2 : Portfolio :=
  { initial_capital := 100, cash := 100, commission_pct := 0, min_position_size := 1/100
    max_position_size := 15/100, positions := [], trades := [trA, trS], history := [] }

theorem pfA1_good : GoodState pfA1 := by
  refine ⟨⟨?_, ?_, ?_, ?_⟩, ?_, ?_⟩
  · norm_num [pfA1]
  · norm_num [pfA1]
  · norm_num [pfA1]
  · norm_num [pfA1]
  · norm_num [pfA1]
  · intro x hx
    simp only [pfA1, List.mem_singleton] at hx
    subst hx
    exact ⟨by norm_num [posA], by norm_num [posA]⟩

theorem pfA1_sell_eval : pfA1.sell "X" 2 "d2" none "SIGNAL" = (pfA2, some trS) := by
  unfold Portfolio.sell pfA1
  norm_num [List.lookup, posA, eraseKey, updateKey, pfA2, trS, trA, List.filter]

/-- Witness for C2 (amended) at concrete inputs: a concrete buy leg and a
concrete sell leg. -/
theorem claim_C2_sign_convention_witness :
    (trA.action = .BUY ∧
      trA.total_cost = (trA.shares : ℚ) * trA.price + trA.commission ∧
      0 < trA.total_cost ∧
      pfA1.cash = pfA.cash - trA.total_cost) ∧
    (trS.action = .SELL ∧
      trS.total_cost = -((trS.shares : ℚ) * trS.price - trS.commission) ∧
      trS.total_cost < 0 ∧
      pfA2.cash = pfA1.cash - trS.total_cost) :=
  ⟨claim_C2_sign_convention.1 pfA "X" 2 8 "d" none none "SIGNAL" pfA1 trA
      pfA_good (by norm_num) pfA_buy_eval,
    claim_C2_sign_convention.2 pfA1 "X" 2 "d2" none "SIGNAL" pfA2 trS
      pfA1_good (by norm_num) (by norm_num [pfA1]) trivial pfA1_sell_eval⟩

/-- C7: from a portfolio not holding the instrument, after a successful buy a
full-position sell at the same price executes, pays the same commission as the
buy leg, and leaves cash at the original cash minus twice that commission —
not at the original cash. -/
theorem claim_C7_round_trip (pf : Portfolio) (tk : String) (price tpct : ℚ)
    (d1 d2 r1 r2 : String) (pf1 : Portfolio) (tr : Trade)
    (hnopos : pf.positions.lookup tk = none)
    (hbuy : pf.buy tk price tpct d1 none none r1 = (pf1, some tr)) :
    (pf1.sell tk price d2 none r2).2.map Trade.commission = some tr.commission ∧
    (pf1.sell tk price d2 none r2).1.cash = pf.cash - 2 * tr.commission := by
  obtain ⟨s, tv, m, hs0, hcb, hexec, -⟩ := buy_some_exec hbuy
  unfold Portfolio.buyExec at hexec
  rw [hnopos] at hexec
  dsimp only at hexec
  rw [Prod.mk.injEq] at hexec
  obtain ⟨hpf1, htr⟩ := hexec
  rw [Option.some_inj] at htr
  subst htr
  subst hpf1
  have hlook := lookup_append_of_lookup_eq_none hnopos
    ({ ticker := tk, shares := s, avg_price := price, current_price := price
       entry_date := d1, stop_loss := none, take_profit := none } : Position)
  unfold Portfolio.sell
  dsimp only
  rw [hlook]
  dsimp only [Option.getD]
  rw [min_self, if_neg hs0]
  refine ⟨?_, ?_⟩
  · dsimp only [Option.map]
  · dsimp only
    ring

/-- Witness for C7 at concrete inputs. -/
theorem claim_C7_round_trip_witness :
    ((pfA1.sell "X" 2 "d2" none "SIGNAL").2.map Trade.commission = some trA.commission) ∧
    (pfA1.sell "X" 2 "d2" none "SIGNAL").1.cash = pfA.cash - 2 * trA.commission :=
  claim_C7_round_trip pfA "X" 2 8 "d" "d2" "SIGNAL" "SIGNAL" pfA1 trA
    (by norm_num [pfA, Portfolio.fresh, List.lookup]) pfA_buy_eval

/-- A portfolio holding 10 shares of "X", used for the C3 failing input. -/
def posB : Position :=
  { ticker := "X", shares := 10, avg_price := 10, current_price := 10, entry_date := "d0"
    stop_loss := none, take_profit := none }

def pfB : Portfolio :=
  { initial_capital := 100, cash := 100, commission_pct := 1/1000
    min_position_size := 1/100, max_position_size := 15/100
    positions := [("X", posB)], trades := [], history := [] }

/-- The negative-share position the faulty buy creates. -/
def posNeg : Position :=
  { ticker := "X", shares := -5, avg_price := -3, current_price := -3, entry_date := "d"
    stop_loss := none, take_profit := none }

/-- C3 evaluation at the failing inputs: the code does not fail fast on faulty
driver input. A sell with a negative share count executes a SELL trade and
*decreases* cash (shorting the position up to 15 shares); a buy with a
negative price executes a BUY trade and creates a negative-share position.
Neither raises any error. -/
theorem claim_C3_negative_input_executes :
    ((pfB.sell "X" 10 "d" (some (-5)) "SIGNAL").2 ≠ none ∧
      (pfB.sell "X" 10 "d" (some (-5)) "SIGNAL").1.cash < pfB.cash) ∧
    ((pfA.buy "X" (-3) 15 "d" none none "SIGNAL").2 ≠ none ∧
      (pfA.buy "X" (-3) 15 "d" none none "SIGNAL").1.positions = [("X", posNeg)] ∧
      posNeg.shares < 0) := by
  have h15 : pyInt (15 : ℚ) = 15 := pyInt_eq_of (by norm_num) (by norm_num) (by norm_num)
  have hneg5 : pyInt (-5 : ℚ) = -5 := by
    unfold pyInt
    rw [if_neg (by norm_num), show (-(-5 : ℚ)) = ((5 : ℤ) : ℚ) by norm_num,
      Int.floor_intCast]
  constructor
  · constructor
    · unfold Portfolio.sell pfB
      norm_num [List.lookup, posB]
      simp
    · unfold Portfolio.sell pfB
      norm_num [List.lookup, posB, eraseKey, updateKey]
  · refine ⟨?_, ?_, by norm_num [posNeg]⟩
    · unfold Portfolio.buy Portfolio.can_buyS Portfolio.canBuyCashS Portfolio.buyExec pfA
        Portfolio.fresh
      norm_num [Portfolio.total_value, Portfolio.positions_value, List.lookup, h15, hneg5]
      simp
    · unfold Portfolio.buy Portfolio.can_buyS Portfolio.canBuyCashS Portfolio.buyExec pfA
        Portfolio.fresh
      norm_num [Portfolio.total_value, Portfolio.positions_value, List.lookup, h15, hneg5,
        posNeg]

/-- All the input rates of an all-`none` reindexed series forward-fill to
`none` again. -/
theorem ffill_none_all (dates : List ℕ) :
    ffill none (dates.map (fun _ => (none : Option ℚ))) = dates.map (fun _ => none) := by
  induction dates with
  | nil => rfl
  | cons d rest ih => simpa [ffill] using ih

/-- C4 counterexample: on an entirely empty source series the aligner returns
a series that still contains a missing value — `mean()` of an empty series is
`NaN` and `fillna(NaN)` fills nothing — instead of failing loudly or producing
a complete series. -/
theorem claim_C4_counterexample :
    align_cdi_to_portfolio [0] [] = [none] := rfl

/-- C4 amended: when the source series is non-empty, the aligned series has no
missing values over the target axis (dates copied, gaps forward-filled,
leading gaps mean-filled); but on an entirely empty source the aligner does
not fail loudly: it silently returns an all-missing series. -/
theorem claim_C4_no_gaps_unless_empty_source (portfolio_dates : List ℕ)
    (cdi_df : List (ℕ × ℚ)) :
    (cdi_df ≠ [] → ∀ x ∈ align_cdi_to_portfolio portfolio_dates cdi_df, x.isSome) ∧
    (cdi_df = [] → ∀ x ∈ align_cdi_to_portfolio portfolio_dates cdi_df, x = none) := by
  constructor
  · intro hne x hx
    unfold align_cdi_to_portfolio at hx
    dsimp only at hx
    split at hx
    · have hmean : seriesMean (cdi_df.map (fun x => x.2)) =
          some ((cdi_df.map (fun x => x.2)).sum / ((cdi_df.map (fun x => x.2)).length : ℚ)) := by
        unfold seriesMean
        rw [if_neg (by simpa using hne)]
      rw [hmean] at hx
      unfold fillna at hx
      dsimp only at hx
      rcases List.mem_map.mp hx with ⟨y, hy, rfl⟩
      rfl
    · rename_i hany
      cases x with
      | some v => rfl
      | none => exact absurd (List.any_eq_true.mpr ⟨none, hx, rfl⟩) hany
  · intro hemp x hx
    subst hemp
    unfold align_cdi_to_portfolio at hx
    dsimp only at hx
    rw [show portfolio_dates.map (fun d => List.lookup d ([] : List (ℕ × ℚ))) =
        portfolio_dates.map (fun _ => (none : Option ℚ)) from by simp [List.lookup]] at hx
    rw [ffill_none_all] at hx
    split at hx
    · simp only [seriesMean, fillna, List.map_nil, List.isEmpty_nil, if_pos] at hx
      rcases List.mem_map.mp hx with ⟨y, hy, rfl⟩
      rfl
    · rcases List.mem_map.mp hx with ⟨y, hy, rfl⟩
      rfl

/-- Witness for C4 (amended) at concrete inputs. -/
theorem claim_C4_no_gaps_witness :
    (align_cdi_to_portfolio [0, 1] [(0, 1)]).all Option.isSome = true ∧
    (align_cdi_to_portfolio [0, 1] ([] : List (ℕ × ℚ))).all Option.isNone = true := by
  constructor
  · apply List.all_eq_true.mpr
    intro x hx
    exact (claim_C4_no_gaps_unless_empty_source [0, 1] [(0, 1)]).1 (by norm_num) x hx
  · apply List.all_eq_true.mpr
    intro x hx
    rw [(claim_C4_no_gaps_unless_empty_source [0, 1] ([] : List (ℕ × ℚ))).2 rfl x hx]
    rfl

/- ======== scan/index lemmas relating the pandas pipeline to the spec ======== -/

theorem cumprodAux_eq : ∀ (xs : List ℚ) (a : ℚ),
    cumprodAux a xs = (List.range xs.length).map (fun i => a * (xs.take (i + 1)).prod) := by
  intro xs
  induction xs with
  | nil => intro a; rfl
  | cons x t ih =>
    intro a
    show (a * x) :: cumprodAux (a * x) t = _
    rw [ih (a * x), List.length_cons, List.range_succ_eq_map, List.map_cons, List.map_map]
    refine List.cons_eq_cons.mpr ⟨?_, ?_⟩
    · simp
    · apply List.map_congr_left
      intro i hi
      simp only [Function.comp_apply, List.take_succ_cons, List.prod_cons]
      ring

theorem cumprod_eq (xs : List ℚ) :
    cumprod xs = (List.range xs.length).map (fun i => (xs.take (i + 1)).prod) := by
  rw [cumprod, cumprodAux_eq]
  apply List.map_congr_left
  intro i hi
  rw [one_mul]

theorem runMaxAux_eq : ∀ (xs : List ℚ) (m : ℚ),
    runMaxAux m xs = (List.range xs.length).map (fun i => (xs.take (i + 1)).foldl max m) := by
  intro xs
  induction xs with
  | nil => intro m; rfl
  | cons x t ih =>
    intro m
    show (max m x) :: runMaxAux (max m x) t = _
    rw [ih (max m x), List.length_cons, List.range_succ_eq_map, List.map_cons, List.map_map]
    refine List.cons_eq_cons.mpr ⟨?_, ?_⟩
    · simp
    · apply List.map_congr_left
      intro i hi
      simp only [Function.comp_apply, List.take_succ_cons, List.foldl_cons]

theorem runMax_eq : ∀ xs : List ℚ,
    runMax xs = (List.range xs.length).map (fun i => listMax (xs.take (i + 1))) := by
  intro xs
  cases xs with
  | nil => rfl
  | cons x t =>
    show x :: runMaxAux x t = _
    rw [runMaxAux_eq, List.length_cons, List.range_succ_eq_map, List.map_cons, List.map_map]
    refine List.cons_eq_cons.mpr ⟨rfl, ?_⟩
    apply List.map_congr_left
    intro i hi
    simp only [Function.comp_apply, List.take_succ_cons]
    rfl

theorem zipWith_map_same {α β : Type} (f : β → β → β) (g h : α → β) :
    ∀ l : List α, List.zipWith f (l.map g) (l.map h) = l.map (fun x => f (g x) (h x)) := by
  intro l
  induction l with
  | nil => rfl
  | cons x t ih => simp [ih]

/-- The code's cumprod / expanding-max / pointwise drawdown / min pipeline
equals the spec-side indexed trough-to-peak value. -/
theorem drawdown_core_eq (returns : List ℚ) :
    listMin (List.zipWith (fun cu m => (cu - m) / m)
        (cumprod (returns.map (fun r => 1 + r)))
        (runMax (cumprod (returns.map (fun r => 1 + r))))) * 100 =
      specMaxDrawdown returns := by
  have hcum : cumprod (returns.map (fun r => 1 + r)) =
      (List.range returns.length).map (specCum returns) := by
    rw [cumprod_eq, List.length_map]
    apply List.map_congr_left
    intro i hi
    unfold specCum
    rw [← List.map_take]
  have hrm : runMax (cumprod (returns.map (fun r => 1 + r))) =
      (List.range returns.length).map (specRunMax returns) := by
    rw [hcum, runMax_eq, List.length_map, List.length_range]
    apply List.map_congr_left
    intro i hi
    rw [List.mem_range] at hi
    unfold specRunMax
    rw [← List.map_take, List.take_range, Nat.min_eq_left (by omega)]
  rw [hrm, hcum, zipWith_map_same]
  unfold specMaxDrawdown
  rfl

/-- C8: for every history with at least two records, whatever `np.sqrt` and
float `**` compute, the engine returns a result whose reported max drawdown is
exactly the spec-side trough-to-peak value: the most negative
`(cumulative − runningMax) / runningMax` over the cumulative product of
`1 + r` for the returns with the first record dropped — not a naive minimum
of returns. -/
theorem claim_C8_max_drawdown (sqrtQ : ℚ → ℚ) (powQ : ℚ → ℚ → ℚ)
    (portfolio_history : List HistRecord) (cdi_series : Option (List ℚ))
    (risk_free_rate : ℚ) (hlen : 2 ≤ portfolio_history.length) :
    ∃ met : Metrics,
      calculate_metrics sqrtQ powQ portfolio_history cdi_series risk_free_rate = some met ∧
      met.max_drawdown_pct =
        specMaxDrawdown ((portfolio_history.map (fun h => h.returns / 100)).drop 1) := by
  unfold calculate_metrics
  rw [if_neg (by omega)]
  dsimp only
  rw [if_neg (by simp only [List.length_drop, List.length_map]; omega)]
  refine ⟨_, rfl, ?_⟩
  unfold calculate_metricsCore
  dsimp only
  exact drawdown_core_eq _

/-- Scenario C history: recorded percent returns `[0, 1, -2, 3]`. -/
def histC : List HistRecord :=
  [ { date := "d0", total_value := 100, cash := 100, positions_value := 0
      num_positions := 0, returns := 0 }
  , { date := "d1", total_value := 101, cash := 101, positions_value := 0
      num_positions := 0, returns := 1 }
  , { date := "d2", total_value := 9898/100, cash := 9898/100, positions_value := 0
      num_positions := 0, returns := -2 }
  , { date := "d3", total_value := 1019494/10000, cash := 1019494/10000, positions_value := 0
      num_positions := 0, returns := 3 } ]

/-- Witness for C8 on the Scenario C history. -/
theorem claim_C8_max_drawdown_witness :
    (calculate_metrics (fun q => q) (fun a _ => a) histC none (135/1000)).map
        Metrics.max_drawdown_pct =
      some (specMaxDrawdown ((histC.map (fun h => h.returns / 100)).drop 1)) := by
  obtain ⟨met, hm, hdd⟩ := claim_C8_max_drawdown (fun q => q) (fun a _ => a) histC none
    (135/1000) (by norm_num [histC])
  rw [hm, Option.map_some', hdd]

/-- The metric formulas use the first/last portfolio value only through their
ratio, so scaling both by a non-zero constant changes nothing. -/
theorem calculate_metricsCore_scale (sqrtQ : ℚ → ℚ) (powQ : ℚ → ℚ → ℚ)
    (returns : List ℚ) (iv fv : ℚ) (nd : ℕ) (cdi : Option (List ℚ)) (rf : ℚ)
    {k : ℚ} (hk : k ≠ 0) :
    calculate_metricsCore sqrtQ powQ returns (k * iv) (k * fv) nd cdi rf =
      calculate_metricsCore sqrtQ powQ returns iv fv nd cdi rf := by
  unfold calculate_metricsCore
  rw [mul_div_mul_left fv iv hk]

/-- C9 amended: end-to-end invariance under scaling prices and initial capital
fails (see the counterexample: integer truncation of the target value and of
the share count changes the purchased quantity). What does hold: the Metrics
Engine is scale-invariant — scaling every recorded `total_value` by a positive
constant, with the recorded returns unchanged, leaves every output (total and
annualized return, volatility, Sharpe, drawdown, Calmar, win rate, best/worst
day, benchmark comparison) unchanged. -/
theorem claim_C9_metrics_scale_invariant (sqrtQ : ℚ → ℚ) (powQ : ℚ → ℚ → ℚ)
    (k : ℚ) (hk : 0 < k) (portfolio_history : List HistRecord)
    (cdi_series : Option (List ℚ)) (risk_free_rate : ℚ) :
    calculate_metrics sqrtQ powQ (portfolio_history.map (scaleRecord k)) cdi_series
        risk_free_rate =
      calculate_metrics sqrtQ powQ portfolio_history cdi_series risk_free_rate := by
  unfold calculate_metrics
  rw [List.length_map]
  by_cases hlen : portfolio_history.length < 2
  · rw [if_pos hlen, if_pos hlen]
  · rw [if_neg hlen, if_neg hlen]
    dsimp only
    have hret : ((portfolio_history.map (scaleRecord k)).map (fun h => h.returns / 100)) =
        portfolio_history.map (fun h => h.returns / 100) := by
      rw [List.map_map]
      rfl
    rw [hret]
    by_cases hz : ((portfolio_history.map (fun h => h.returns / 100)).drop 1).length = 0
    · rw [if_pos hz, if_pos hz]
    · rw [if_neg hz, if_neg hz]
      have hmap : (portfolio_history.map (scaleRecord k)).map HistRecord.total_value =
          (portfolio_history.map HistRecord.total_value).map (fun v => k * v) := by
        rw [List.map_map, List.map_map]
        rfl
      rw [hmap]
      have hheadI :
          ((portfolio_history.map HistRecord.total_value).map (fun v => k * v)).headI =
            k * (portfolio_history.map HistRecord.total_value).headI := by
        cases portfolio_history with
        | nil => exact absurd (by simp) hlen
        | cons a t => simp
      have hlast :
          (((portfolio_history.map HistRecord.total_value).map
              (fun v => k * v)).getLast?.getD 0) =
            k * ((portfolio_history.map HistRecord.total_value).getLast?.getD 0) := by
        rw [List.getLast?_map]
        cases hL : (portfolio_history.map HistRecord.total_value).getLast? with
        | none => simp
        | some v => simp
      rw [hheadI, hlast, calculate_metricsCore_scale sqrtQ powQ _ _ _ _ _ _ hk.ne']

/-- C9 counterexample: scaling all prices and the initial capital by
`k = 11/10` changes `exposurePct` (15 versus 12) on the very same decision
sequence, because `can_buy` truncates the target value to an integer and `buy`
truncates the share count. -/
theorem claim_C9_counterexample :
    (0 : ℚ) < 11/10 ∧
    ((Portfolio.fresh 100 0 (1/100) (15/100)).buy "X" 3 15 "d" none none
        "SIGNAL").1.summary.exposure_pct = 15 ∧
    ((Portfolio.fresh (11/10 * 100) 0 (1/100) (15/100)).buy "X" (11/10 * 3) 15 "d" none none
        "SIGNAL").1.summary.exposure_pct = 12 := by
  have h15 : pyInt (15 : ℚ) = 15 := pyInt_eq_of (by norm_num) (by norm_num) (by norm_num)
  have h5 : pyInt (5 : ℚ) = 5 := pyInt_eq_of (by norm_num) (by norm_num) (by norm_num)
  have h165 : pyInt (33/2 : ℚ) = 16 := pyInt_eq_of (by norm_num) (by norm_num) (by norm_num)
  have h484 : pyInt (160/33 : ℚ) = 4 := pyInt_eq_of (by norm_num) (by norm_num) (by norm_num)
  refine ⟨by norm_num, ?_, ?_⟩
  · unfold Portfolio.buy Portfolio.can_buyS Portfolio.canBuyCashS Portfolio.buyExec
      Portfolio.fresh
    norm_num [Portfolio.total_value, Portfolio.positions_value, Portfolio.summary,
      Portfolio.exposure, Position.market_value, List.lookup, h15, h5]
  · unfold Portfolio.buy Portfolio.can_buyS Portfolio.canBuyCashS Portfolio.buyExec
      Portfolio.fresh
    norm_num [Portfolio.total_value, Portfolio.positions_value, Portfolio.summary,
      Portfolio.exposure, Position.market_value, List.lookup, h15, h165, h484]

/-- Witness for C9 (amended) at concrete inputs. -/
theorem claim_C9_metrics_scale_invariant_witness :
    calculate_metrics (fun q => q) (fun a _ => a) (histC.map (scaleRecord 2)) none
        (135/1000) =
      calculate_metrics (fun q => q) (fun a _ => a) histC none (135/1000) :=
  claim_C9_metrics_scale_invariant (fun q => q) (fun a _ => a) 2 (by norm_num) histC none
    (135/1000)

end Backtest
